import Mathlib

/-!
Verification of the `memory-search` tool (`src/memory-search.py`).

The Python code is shallowly embedded over `List Char` / `String`:
Python strings are Lean `String`s, Python code-point indexing and slicing
are `List.take`/`List.drop` on `String.data`, and the character classes
(`\w`, `str.strip` whitespace) are modelled over ASCII, matching Python's
behaviour on ASCII input.  The filesystem is modelled explicitly: a file
is a path, a name, and an optional content (`none` models a file whose
`open`/`read` raises, i.e. a missing or unreadable/undecodable file).
-/

namespace MemorySearch

/-! ### Character classes and Python string primitives -/

/-- Python regex `\w` (ASCII fragment): letters, digits, underscore. -/
def isWordChar (c : Char) : Bool := c.isAlphanum || c == '_'

/-- The whitespace set of Python `str.strip()` (ASCII). -/
def isPySpace (c : Char) : Bool :=
  c == ' ' || c == '\t' || c == '\n' || c == '\r' || c == '\x0b' || c == '\x0c'

/-- Python `str.strip()` on a character list. -/
def pyStripList (cs : List Char) : List Char :=
  ((cs.dropWhile isPySpace).reverse.dropWhile isPySpace).reverse

/-- Python `str.strip()`. -/
def pyStrip (s : String) : String := String.mk (pyStripList s.data)

/-- Python slicing `s[:n]` (by code points). -/
def strTake (s : String) (n : Nat) : String := String.mk (s.data.take n)

/-- Python `str.split('\n')`. -/
def splitLines : List Char → List (List Char)
  | [] => [[]]
  | c :: rest =>
    if c = '\n' then [] :: splitLines rest
    else
      match splitLines rest with
      | [] => [[c]]
      | l :: ls => (c :: l) :: ls

/-- Python `str.startswith(c)` for a single-character pattern. -/
def startsWithChar (c : Char) (l : List Char) : Bool :=
  match l with
  | [] => false
  | d :: _ => d == c

/-- Python `str.endswith(suffix)` / glob suffix matching. -/
def strEndsWith (s suffix : String) : Bool :=
  List.isPrefixOf suffix.data.reverse s.data.reverse

/-- Python `pathlib.Path(p).name`: the component after the last `/`. -/
def basename (p : String) : String :=
  String.mk ((p.data.reverse.takeWhile (fun c => c != '/')).reverse)

/-- Lexicographic (code-point) comparison of character lists, modelling
Python's `sorted` on path strings. -/
def lexLe : List Char → List Char → Bool
  | [], _ => true
  | _ :: _, [] => false
  | a :: as, b :: bs => if a = b then lexLe as bs else decide (a < b)

/-! ### Date extraction: `re.search(r'(\d{4}-\d{2}-\d{2})', md_file.name)` -/

/-- Does the regex `\d{4}-\d{2}-\d{2}` match at the head of `cs`?
If so, return the matched 10 characters. -/
def dateAt : List Char → Option (List Char)
  | a :: b :: c :: d :: h1 :: e :: f :: h2 :: g :: h :: _ =>
    if a.isDigit && b.isDigit && c.isDigit && d.isDigit && h1 == '-' &&
       e.isDigit && f.isDigit && h2 == '-' && g.isDigit && h.isDigit then
      some [a, b, c, d, h1, e, f, h2, g, h]
    else none
  | _ => none

/-- `re.search`: the leftmost match of `\d{4}-\d{2}-\d{2}`. -/
def findDateAux : List Char → Option (List Char)
  | [] => none
  | c :: rest =>
    match dateAt (c :: rest) with
    | some d => some d
    | none => findDateAux rest

/-- The first `YYYY-MM-DD`-shaped substring of a filename, if any. -/
def findDate (name : String) : Option String :=
  (findDateAux name.data).map String.mk

/-- `date_created = date_match.group(1) if date_match else "unknown"`
(memory-search.py lines 60-61). -/
def extract_date (name : String) : String :=
  match findDate name with
  | some d => d
  | none => "unknown"

/-! ### Tag extraction: `" ".join(re.findall(r'#\w+', content))` -/

/-- `re.findall(r'#\w+', content)`: scan left to right; at a `#` followed
by at least one word character, emit the `#` together with the maximal
word-character run and resume after it; otherwise advance one character. -/
def findTagsAux : List Char → List (List Char)
  | [] => []
  | c :: rest =>
    if c = '#' then
      let w := rest.takeWhile isWordChar
      if w.isEmpty then findTagsAux rest
      else ('#' :: w) :: findTagsAux (rest.dropWhile isWordChar)
    else findTagsAux rest
termination_by cs => cs.length
decreasing_by
  all_goals
    simp only [List.length_cons]
    first
      | exact Nat.lt_succ_of_le ((List.dropWhile_sublist _).length_le)
      | exact Nat.lt_succ_of_le (Nat.le_refl _)

/-- `re.findall(r'#\w+', content)` as a list of strings. -/
def re_findall_tags (content : String) : List String :=
  (findTagsAux content.data).map String.mk

/-- `tags = " ".join(re.findall(r'#\w+', content))` (memory-search.py line 62). -/
def extract_tags (content : String) : String :=
  String.intercalate " " (re_findall_tags content)

/-! ### Summary extraction (memory-search.py lines 63-65):
`lines = content.strip().split('\n')`,
`first_para = next((l.strip() for l in lines if l.strip() and not l.startswith('#')), content[:200])`,
`summary = first_para[:200]`. -/

/-- The generator filter: `l.strip() and not l.startswith('#')`. -/
def summaryLineOk (l : List Char) : Bool :=
  !(pyStripList l).isEmpty && !startsWithChar '#' l

def extract_summary (content : String) : String :=
  let lines := splitLines (pyStripList content.data)
  let first_para :=
    ((lines.find? summaryLineOk).map pyStripList).getD (content.data.take 200)
  String.mk (first_para.take 200)

/-! ### Filesystem model -/

/-- One file in the document tree: its path, its name (the last path
component), and its content; `content = none` models a file whose
`open`/`read` raises (missing, unreadable, or not valid UTF-8). -/
structure MFile where
  path : String
  name : String
  content : Option String
deriving DecidableEq

/-- The result of `self.memory_dir.glob("**/*.md")` over a tree of files:
the files whose name ends in `.md` (pathlib's glob does not exclude
hidden files; the indexer filters those separately). -/
def globMd (tree : List MFile) : List MFile :=
  tree.filter (fun f => strEndsWith f.name ".md")

/-! ### Index store and indexer (memory-search.py lines 51-73) -/

/-- One row of the `memory_fts` table. -/
structure Record where
  file_path : String
  content : String
  date_created : String
  tags : String
  summary : String
deriving DecidableEq

/-- The row inserted for a successfully read file (lines 60-67). -/
def mkRecord (f : MFile) (c : String) : Record :=
  { file_path := f.path
    content := c
    date_created := extract_date f.name
    tags := extract_tags c
    summary := extract_summary c }

/-- `DELETE FROM memory_fts` (line 53). -/
def clearAll (_store : List Record) : List Record := []

/-- Outcome of `index_memory_files`: the table contents, the number of
warnings printed, and the reported indexed count. -/
structure RebuildResult where
  records : List Record
  warnings : Nat
  indexed : Nat
deriving DecidableEq

/-- The body of the `for md_file in ...` loop (lines 56-70): skip names
starting with `.`; on read failure print a warning; otherwise insert the
extracted record and bump the counter. -/
def indexStep (acc : RebuildResult) (f : MFile) : RebuildResult :=
  if startsWithChar '.' f.name.data then acc
  else
    match f.content with
    | some c =>
      { acc with records := acc.records ++ [mkRecord f c], indexed := acc.indexed + 1 }
    | none => { acc with warnings := acc.warnings + 1 }

/-- `index_memory_files` (lines 51-73): clear the table, then walk the
glob results inserting one record per readable non-hidden `.md` file. -/
def index_memory_files (store : List Record) (tree : List MFile) : RebuildResult :=
  (globMd tree).foldl indexStep { records := clearAll store, warnings := 0, indexed := 0 }

/-! ### Timeline (memory-search.py lines 89-94) -/

/-- One entry of the timeline listing. -/
structure TEntry where
  file : String
  date : String
  path : String
deriving DecidableEq

/-- Insertion into a path-sorted list (modelling Python's `sorted` on paths). -/
def insertByPath (f : MFile) : List MFile → List MFile
  | [] => [f]
  | g :: gs =>
    if lexLe f.path.data g.path.data then f :: g :: gs else g :: insertByPath f gs

/-- `sorted(self.memory_dir.glob("**/*.md"))`: the glob results in
lexical path order. -/
def sortByPath (l : List MFile) : List MFile := l.foldr insertByPath []

/-- `timeline` (lines 89-94).  The `around_date` parameter is accepted
but never read by the body. -/
def timeline (tree : List MFile) (around_date : Option String) : List TEntry :=
  (sortByPath (globMd tree)).filterMap fun md =>
    (findDate md.name).map fun d => { file := md.name, date := d, path := md.path }

/-! ### Content accessor (memory-search.py lines 96-97) -/

/-- A filesystem for `get_content`: paths mapped to readable content
(`none` again models a failing `open(p).read()`). -/
def FS : Type := List (String × Option String)

/-- `open(p).read()`, as an option. -/
def readFile (fs : FS) (p : String) : Option String :=
  match List.find? (fun e => e.1 == p) fs with
  | some e => e.2
  | none => none

/-- `get_content` (lines 96-97): `{Path(p).name: open(p).read() for p in paths}`.
The dict comprehension evaluates the paths left to right and the first
failing `open` raises, discarding everything; the result is modelled as
an association list in insertion order (Python's dict would additionally
collapse duplicate basenames, keeping the last; the claims below only
concern path lists with distinct basenames). -/
def get_content (fs : FS) : List String → Except String (List (String × String))
  | [] => .ok []
  | p :: ps =>
    match readFile fs p with
    | none => .error p
    | some c =>
      match get_content fs ps with
      | .error q => .error q
      | .ok rest => .ok ((basename p, c) :: rest)

/-! ### Search (memory-search.py lines 75-87)

The `search` method passes the raw query text to SQLite's FTS5 `MATCH`
and does not catch errors, so a query the FTS5 parser rejects aborts the
call before any row is produced.  The FTS5 engine itself lives inside
SQLite, not in this repository; its behaviour is modelled from the spec
below. -/

/-- The error raised by SQLite when `MATCH` is given empty or malformed
query text (the spec's `QueryError`). -/
inductive QueryError where
  | malformed
deriving DecidableEq

/-- One entry of the result list built on lines 83-85. -/
structure SearchResult where
  file : String
  date : String
  snippet : String
  tags : String
  path : String
deriving DecidableEq

/-- Modelled from the spec: FTS5 query well-formedness ("Empty or
malformed query text fails with a `QueryError`").  The FTS5 query parser
is internal to SQLite and absent from the sources; the model treats
empty (or whitespace-only, which FTS5 likewise rejects) text as
malformed. -/
def queryWellFormed (q : String) : Bool := !(pyStripList q.data).isEmpty

/-- Maximal word-character runs of a string (the FTS5 tokenizer model). -/
def wordRuns : List Char → List (List Char)
  | [] => []
  | c :: rest =>
    if isWordChar c then
      (c :: rest.takeWhile isWordChar) :: wordRuns (rest.dropWhile isWordChar)
    else wordRuns rest
termination_by cs => cs.length
decreasing_by
  all_goals
    simp only [List.length_cons]
    first
      | exact Nat.lt_succ_of_le ((List.dropWhile_sublist _).length_le)
      | exact Nat.lt_succ_of_le (Nat.le_refl _)

/-- Modelled from the spec: FTS5 tokenization (case-folded word tokens). -/
def ftsTokens (s : String) : List String :=
  (wordRuns s.data).map (fun l => String.mk (l.map Char.toLower))

/-- Modelled from the spec: FTS5 token matching (every query token must
occur as a token of the record's content). -/
def recordMatches (q : String) (r : Record) : Bool :=
  (ftsTokens q).all (fun t => (ftsTokens r.content).contains t)

/-- Highlight pass for the snippet: wrap each content token matching a
query token in `<mark>`/`</mark>`. -/
def highlightRuns (qtoks : List String) : List Char → List Char
  | [] => []
  | c :: rest =>
    if isWordChar c then
      let w := c :: rest.takeWhile isWordChar
      (if qtoks.contains (String.mk (w.map Char.toLower)) then
        "<mark>".data ++ w ++ "</mark>".data
      else w) ++ highlightRuns qtoks (rest.dropWhile isWordChar)
    else c :: highlightRuns qtoks rest
termination_by cs => cs.length
decreasing_by
  all_goals
    simp only [List.length_cons]
    first
      | exact Nat.lt_succ_of_le ((List.dropWhile_sublist _).length_le)
      | exact Nat.lt_succ_of_le (Nat.le_refl _)

/-- Modelled from the spec: the FTS5 `snippet(memory_fts, 1, '<mark>',
'</mark>', '...', 15)` call, simplified to a full-content highlight (the
15-token windowing is not modelled; no claim depends on it). -/
def ftsSnippet (q content : String) : String :=
  String.mk (highlightRuns (ftsTokens q) content.data)

/-- Modelled from the spec: executing `SELECT ... WHERE memory_fts MATCH ?
ORDER BY rank LIMIT ?`.  Empty/malformed query text raises; otherwise up
to `limit` matching rows are returned (rank modelled as store order). -/
def ftsQuery (store : List Record) (q : String) (limit : Nat) :
    Except QueryError (List Record) :=
  if queryWellFormed q then .ok ((store.filter (recordMatches q)).take limit)
  else .error .malformed

/-- `search` (lines 75-87): run the FTS query and map each row to its
display structure.  The SQL error is not caught, so a malformed query
propagates and no partial result list is built. -/
def search (store : List Record) (q : String) (limit : Nat) :
    Except QueryError (List SearchResult) :=
  (ftsQuery store q limit).map fun rows =>
    rows.map fun r =>
      { file := basename r.file_path
        date := r.date_created
        snippet := ftsSnippet q r.content
        tags := r.tags
        path := r.file_path }

/-! ### Analysis definitions -/

/-- `findTagsAux` instrumented with the start position of each match
(`i` is the position of the head of the remaining input). -/
def tagMatches : Nat → List Char → List (Nat × List Char)
  | _, [] => []
  | i, c :: rest =>
    if c = '#' then
      let w := rest.takeWhile isWordChar
      if w.isEmpty then tagMatches (i + 1) rest
      else (i, '#' :: w) :: tagMatches (i + 1 + w.length) (rest.dropWhile isWordChar)
    else tagMatches (i + 1) rest
termination_by _ cs => cs.length
decreasing_by
  all_goals
    simp only [List.length_cons]
    first
      | exact Nat.lt_succ_of_le ((List.dropWhile_sublist _).length_le)
      | exact Nat.lt_succ_of_le (Nat.le_refl _)

/-- Executable check that `pt` really is a hashtag-token occurrence of
`cs`: a `#` followed by one or more word characters, read off at the
reported position. -/
def tokenOk (cs : List Char) (pt : Nat × List Char) : Bool :=
  startsWithChar '#' pt.2 && !(pt.2.drop 1).isEmpty && (pt.2.drop 1).all isWordChar
    && List.isPrefixOf pt.2 (cs.drop pt.1)

/-- Position of the leftmost `\d{4}-\d{2}-\d{2}` match, if any. -/
def firstDatePos : List Char → Option Nat
  | [] => none
  | c :: rest =>
    if (dateAt (c :: rest)).isSome then some 0
    else (firstDatePos rest).map (· + 1)

/-- The record the rebuild loop produces for one glob candidate, if any:
nothing for hidden names and for unreadable files. -/
def fileRecord (f : MFile) : Option Record :=
  if startsWithChar '.' f.name.data then none else f.content.map (mkRecord f)

/-- A candidate that triggers the warning branch. -/
def isWarned (f : MFile) : Bool :=
  !startsWithChar '.' f.name.data && f.content.isNone

/-- A candidate that gets indexed. -/
def isIndexed (f : MFile) : Bool :=
  !startsWithChar '.' f.name.data && f.content.isSome

/-! ### Definitions following the words of claim C6 (for comparison with
the code's `extract_summary`) -/

/-- Claim C6 read literally over the raw lines of the content, with the
heading test on the line as written and the line returned as written:
"the first line of the content that is non-empty after trimming
whitespace and does not start with a heading marker character, truncated
to at most 200 characters". -/
def claimSummaryRaw (content : String) : String :=
  match (splitLines content.data).find?
      (fun l => !(pyStripList l).isEmpty && !startsWithChar '#' l) with
  | some l => String.mk (l.take 200)
  | none => String.mk (content.data.take 200)

/-- Claim C6 under the alternative reading that the heading test and the
returned text both apply to the trimmed line. -/
def claimSummaryTrimmed (content : String) : String :=
  match (splitLines content.data).find?
      (fun l => !(pyStripList l).isEmpty && !startsWithChar '#' (pyStripList l)) with
  | some l => String.mk ((pyStripList l).take 200)
  | none => String.mk (content.data.take 200)

/-! ### Concrete inputs used by counterexamples and witnesses -/

/-- A document file whose name carries no date. -/
def undatedFile : MFile :=
  { path := "memory/notes.md", name := "notes.md", content := some "hello world" }

/-- A one-file filesystem for the content accessor. -/
def fsExample : FS := [("memory/2026-02-01-notes.md", some "hello world")]

/-- A 250-character line. -/
def longLine : String := String.mk (List.replicate 250 'a')

/-- A document whose first non-heading line is `longLine`. -/
def longContent : String := String.mk ('#' :: ' ' :: 'H' :: '\n' :: List.replicate 250 'a')

/-- A readable, dated, non-hidden document. -/
def exGood : MFile :=
  { path := "memory/2026-02-01-notes.md", name := "2026-02-01-notes.md"
    content := some "# Notes\nDecided to use #memory today" }

/-- An unreadable document. -/
def exBad : MFile :=
  { path := "memory/corrupt.md", name := "corrupt.md", content := none }

/-- A hidden document. -/
def exHidden : MFile :=
  { path := "memory/.hidden.md", name := ".hidden.md", content := some "secret" }

/-- A non-document file. -/
def exOther : MFile :=
  { path := "memory/readme.txt", name := "readme.txt", content := some "not a doc" }

/-- A small document tree exercising all indexer branches. -/
def exTree : List MFile := [exGood, exBad, exHidden, exOther]

/-- A record over which an empty query can be issued. -/
def exRecord : Record :=
  { file_path := "memory/2026-02-01-notes.md", content := "hello world"
    date_created := "2026-02-01", tags := "", summary := "hello world" }

/-! ### Helper lemmas -/

theorem dropWhile_eq_drop_length (p : Char → Bool) (l : List Char) :
    l.dropWhile p = l.drop (l.takeWhile p).length := by
  calc l.dropWhile p
      = List.drop (l.takeWhile p).length (l.takeWhile p ++ l.dropWhile p) :=
        (List.drop_left' rfl).symm
    _ = l.drop (l.takeWhile p).length := by rw [List.takeWhile_append_dropWhile]

theorem isPrefixOf_takeWhile (p : Char → Bool) (l : List Char) :
    List.isPrefixOf (l.takeWhile p) l = true := by
  induction l with
  | nil => rfl
  | cons a as ih =>
    by_cases h : p a
    · simp [List.takeWhile_cons, h, List.isPrefixOf, ih]
    · simp [List.takeWhile_cons, h, List.isPrefixOf]

theorem takeWhile_all (p : Char → Bool) (l : List Char) :
    (l.takeWhile p).all p = true :=
  List.all_eq_true.mpr (fun _ hx => List.mem_takeWhile_imp hx)

theorem strLength_mk (l : List Char) : (String.mk l).length = l.length := rfl

/-- Dropping positions recovers the source-side match list. -/
theorem tagMatches_map_snd (i : Nat) (cs : List Char) :
    (tagMatches i cs).map Prod.snd = findTagsAux cs := by
  match cs with
  | [] => simp [tagMatches, findTagsAux]
  | c :: rest =>
    by_cases hc : c = '#'
    · by_cases hw : (rest.takeWhile isWordChar).isEmpty
      · simp only [tagMatches, findTagsAux, hc, if_true, hw]
        exact tagMatches_map_snd (i + 1) rest
      · simp only [tagMatches, findTagsAux, hc, if_true, hw, if_false, List.map_cons]
        exact congrArg _ (tagMatches_map_snd _ _)
    · simp only [tagMatches, findTagsAux, hc, if_false]
      exact tagMatches_map_snd (i + 1) rest
termination_by cs.length
decreasing_by
  all_goals
    simp only [List.length_cons]
    first
      | exact Nat.lt_succ_of_le ((List.dropWhile_sublist _).length_le)
      | exact Nat.lt_succ_of_le (Nat.le_refl _)

/-- Every reported position is at least the running offset. -/
theorem tagMatches_le_fst (i : Nat) (cs : List Char) :
    ∀ pt ∈ tagMatches i cs, i ≤ pt.1 := by
  match cs with
  | [] => intro pt h; simp [tagMatches] at h
  | c :: rest =>
    intro pt h
    by_cases hc : c = '#'
    · by_cases hw : (rest.takeWhile isWordChar).isEmpty
      · simp only [tagMatches, hc, if_true, hw] at h
        exact Nat.le_of_succ_le (tagMatches_le_fst (i + 1) rest pt h)
      · simp only [tagMatches, hc, if_true, hw, if_false] at h
        cases h with
        | head => exact Nat.le_refl _
        | tail _ h =>
          have := tagMatches_le_fst (i + 1 + (rest.takeWhile isWordChar).length) _ pt h
          omega
    · simp only [tagMatches, hc, if_false] at h
      exact Nat.le_of_succ_le (tagMatches_le_fst (i + 1) rest pt h)
termination_by cs.length
decreasing_by
  all_goals
    simp only [List.length_cons]
    first
      | exact Nat.lt_succ_of_le ((List.dropWhile_sublist _).length_le)
      | exact Nat.lt_succ_of_le (Nat.le_refl _)

/-- The reported positions are strictly increasing: the matches are
listed in left-to-right occurrence order. -/
theorem tagMatches_pairwise (i : Nat) (cs : List Char) :
    List.Pairwise (fun a b : Nat × List Char => a.1 < b.1) (tagMatches i cs) := by
  match cs with
  | [] => simp [tagMatches]
  | c :: rest =>
    by_cases hc : c = '#'
    · by_cases hw : (rest.takeWhile isWordChar).isEmpty
      · simp only [tagMatches, hc, if_true, hw]
        exact tagMatches_pairwise (i + 1) rest
      · simp only [tagMatches, hc, if_true, hw, if_false]
        refine List.Pairwise.cons ?_ (tagMatches_pairwise _ _)
        intro pt h
        have := tagMatches_le_fst _ _ pt h
        omega
    · simp only [tagMatches, hc, if_false]
      exact tagMatches_pairwise (i + 1) rest
termination_by cs.length
decreasing_by
  all_goals
    simp only [List.length_cons]
    first
      | exact Nat.lt_succ_of_le ((List.dropWhile_sublist _).length_le)
      | exact Nat.lt_succ_of_le (Nat.le_refl _)

/-- A token occurrence survives shifting the viewport `m` characters left. -/
theorem tokenOk_of_drop {l : List Char} (m : Nat) {pt : Nat × List Char}
    (h : tokenOk (l.drop m) pt = true) : tokenOk l (m + pt.1, pt.2) = true := by
  simp only [tokenOk, List.drop_drop] at h ⊢
  exact h

/-- Every match reported by `tagMatches` is a genuine hashtag-token
occurrence at its reported position (relative to the running offset). -/
theorem tagMatches_tokenOk (i : Nat) (cs : List Char) :
    ∀ pt ∈ tagMatches i cs, tokenOk cs (pt.1 - i, pt.2) = true := by
  match cs with
  | [] => intro pt h; simp [tagMatches] at h
  | c :: rest =>
    intro pt h
    by_cases hc : c = '#'
    · by_cases hw : (rest.takeWhile isWordChar).isEmpty
      · simp only [tagMatches, hc, if_true, hw] at h
        have hle := tagMatches_le_fst (i + 1) rest pt h
        have ih := tagMatches_tokenOk (i + 1) rest pt h
        have step := @tokenOk_of_drop (c :: rest) 1 (pt.1 - (i + 1), pt.2) ih
        have harith : pt.1 - i = 1 + (pt.1 - (i + 1)) := by omega
        rw [harith]
        exact step
      · simp only [tagMatches, hc, if_true, hw, if_false] at h
        cases h with
        | head =>
          subst hc
          simp only [tokenOk, startsWithChar, List.drop_zero, Nat.sub_self,
            List.drop_succ_cons, beq_self_eq_true, Bool.true_and, Bool.and_eq_true]
          refine And.intro (And.intro ?_ ?_) ?_
          · simpa using hw
          · exact takeWhile_all _ _
          · simp [List.isPrefixOf, isPrefixOf_takeWhile]
        | tail _ h =>
          have hle := tagMatches_le_fst (i + 1 + (rest.takeWhile isWordChar).length) _ pt h
          have ih := tagMatches_tokenOk (i + 1 + (rest.takeWhile isWordChar).length) _ pt h
          rw [dropWhile_eq_drop_length] at ih
          have step1 :=
            @tokenOk_of_drop rest (rest.takeWhile isWordChar).length
              (pt.1 - (i + 1 + (rest.takeWhile isWordChar).length), pt.2) ih
          have step2 :=
            @tokenOk_of_drop (c :: rest) 1
              ((rest.takeWhile isWordChar).length +
                (pt.1 - (i + 1 + (rest.takeWhile isWordChar).length)), pt.2) step1
          have harith : pt.1 - i =
              1 + ((rest.takeWhile isWordChar).length +
                (pt.1 - (i + 1 + (rest.takeWhile isWordChar).length))) := by omega
          rw [harith]
          exact step2
    · simp only [tagMatches, hc, if_false] at h
      have hle := tagMatches_le_fst (i + 1) rest pt h
      have ih := tagMatches_tokenOk (i + 1) rest pt h
      have step := @tokenOk_of_drop (c :: rest) 1 (pt.1 - (i + 1), pt.2) ih
      have harith : pt.1 - i = 1 + (pt.1 - (i + 1)) := by omega
      rw [harith]
      exact step
termination_by cs.length
decreasing_by
  all_goals
    simp only [List.length_cons]
    first
      | exact Nat.lt_succ_of_le ((List.dropWhile_sublist _).length_le)
      | exact Nat.lt_succ_of_le (Nat.le_refl _)

/-- A successful `dateAt` returns exactly the first ten characters. -/
theorem dateAt_take {cs d : List Char} (h : dateAt cs = some d) : d = cs.take 10 := by
  unfold dateAt at h
  split at h
  · split at h
    · injection h with h
      subst h
      rfl
    · exact absurd h (by simp)
  · exact absurd h (by simp)

theorem firstDatePos_some (cs : List Char) :
    ∀ i, firstDatePos cs = some i →
      ((List.range i).all fun j => (dateAt (cs.drop j)).isNone) = true
      ∧ (dateAt (cs.drop i)).isSome = true
      ∧ findDateAux cs = dateAt (cs.drop i) := by
  induction cs with
  | nil => intro i h; simp [firstDatePos] at h
  | cons c rest ih =>
    intro i h
    unfold firstDatePos at h
    by_cases hd : (dateAt (c :: rest)).isSome
    · rw [if_pos hd] at h
      injection h with h
      subst h
      refine ⟨by simp, by simpa using hd, ?_⟩
      obtain ⟨d, hd'⟩ := Option.isSome_iff_exists.mp hd
      simp only [List.drop_zero]
      unfold findDateAux
      rw [hd']
    · rw [if_neg hd] at h
      obtain ⟨i', hi', rfl⟩ := Option.map_eq_some'.mp h
      obtain ⟨h1, h2, h3⟩ := ih i' hi'
      have hnone : dateAt (c :: rest) = none := by
        cases hx : dateAt (c :: rest)
        · rfl
        · rw [hx] at hd; simp at hd
      refine ⟨?_, ?_, ?_⟩
      · rw [List.range_succ_eq_map]
        simp only [List.all_cons, List.all_map, Function.comp_def, Nat.succ_eq_add_one,
          List.drop_succ_cons, List.drop_zero, hnone, Option.isNone_none, Bool.true_and]
        exact h1
      · simpa [List.drop_succ_cons] using h2
      · unfold findDateAux
        rw [hnone]
        simpa [List.drop_succ_cons] using h3

theorem firstDatePos_none (cs : List Char) (h : firstDatePos cs = none) :
    ((List.range cs.length).all fun j => (dateAt (cs.drop j)).isNone) = true
    ∧ findDateAux cs = none := by
  induction cs with
  | nil => simp [findDateAux]
  | cons c rest ih =>
    unfold firstDatePos at h
    by_cases hd : (dateAt (c :: rest)).isSome
    · rw [if_pos hd] at h; exact absurd h (by simp)
    · rw [if_neg hd] at h
      have hrest : firstDatePos rest = none := by
        cases hx : firstDatePos rest
        · rfl
        · rw [hx] at h; simp at h
      obtain ⟨h1, h2⟩ := ih hrest
      have hnone : dateAt (c :: rest) = none := by
        cases hx : dateAt (c :: rest)
        · rfl
        · rw [hx] at hd; simp at hd
      constructor
      · rw [List.length_cons, List.range_succ_eq_map]
        simp only [List.all_cons, List.all_map, Function.comp_def, Nat.succ_eq_add_one,
          List.drop_succ_cons, List.drop_zero, hnone, Option.isNone_none, Bool.true_and]
        exact h1
      · unfold findDateAux
        rw [hnone]
        exact h2

theorem foldl_indexStep (l : List MFile) (acc : RebuildResult) :
    l.foldl indexStep acc =
      { records := acc.records ++ l.filterMap fileRecord
        warnings := acc.warnings + l.countP isWarned
        indexed := acc.indexed + l.countP isIndexed } := by
  induction l generalizing acc with
  | nil => simp
  | cons f fs ih =>
    rw [List.foldl_cons, ih]
    by_cases h : startsWithChar '.' f.name.data
    · simp [indexStep, fileRecord, isWarned, isIndexed, h, List.countP_cons]
    · cases hc : f.content with
      | none =>
        simp [indexStep, fileRecord, isWarned, isIndexed, h, hc, List.countP_cons]
        omega
      | some c =>
        simp [indexStep, fileRecord, isWarned, isIndexed, h, hc, List.countP_cons]
        omega

/-- Every record the loop produces carries the path of its source file,
so counting records by path reduces to counting indexed candidates. -/
theorem countP_filterMap_fileRecord (l : List MFile) (p : String) :
    (l.filterMap fileRecord).countP (fun r => r.file_path == p)
      = l.countP (fun f => f.path == p && isIndexed f) := by
  induction l with
  | nil => rfl
  | cons f fs ih =>
    rw [List.filterMap_cons, List.countP_cons]
    by_cases h : startsWithChar '.' f.name.data
    · simp [fileRecord, isIndexed, h, ih]
    · cases hc : f.content with
      | none => simp [fileRecord, isIndexed, h, hc, ih]
      | some c =>
        have hfr : fileRecord f = some (mkRecord f c) := by
          simp [fileRecord, h, hc]
        have hidx : isIndexed f = true := by
          simp [isIndexed, h, hc]
        rw [hfr]
        simp only [List.countP_cons, ih, hidx, Bool.and_true, mkRecord]

/-- In a duplicate-free tree, counting candidates by one member's path
singles out exactly that member. -/
theorem countP_path_single (l : List MFile) (hnd : (l.map MFile.path).Nodup)
    (f : MFile) (hf : f ∈ l) (q : MFile → Bool) :
    l.countP (fun g => g.path == f.path && q g) = if q f then 1 else 0 := by
  induction l with
  | nil => simp at hf
  | cons g gs ih =>
    rw [List.map_cons, List.nodup_cons] at hnd
    rw [List.countP_cons]
    cases hf with
    | head =>
      have hzero : gs.countP (fun g' => g'.path == f.path && q g') = 0 :=
        List.countP_eq_zero.mpr (by
          intro a ha hqa
          rw [Bool.and_eq_true, beq_iff_eq] at hqa
          exact hnd.1 (hqa.1 ▸ List.mem_map_of_mem MFile.path ha))
      simp [hzero]
    | tail _ hf' =>
      have hne : g.path ≠ f.path := by
        intro he
        exact hnd.1 (he ▸ List.mem_map_of_mem MFile.path hf')
      simp [ih hnd.2 hf', hne]

theorem insertByPath_perm (f : MFile) (l : List MFile) :
    (insertByPath f l).Perm (f :: l) := by
  induction l with
  | nil => exact List.Perm.refl _
  | cons g gs ih =>
    unfold insertByPath
    by_cases h : lexLe f.path.data g.path.data
    · rw [if_pos h]
    · rw [if_neg h]
      exact (List.Perm.cons g ih).trans (List.Perm.swap f g gs)

theorem sortByPath_perm (l : List MFile) : (sortByPath l).Perm l := by
  induction l with
  | nil => exact List.Perm.refl _
  | cons f fs ih =>
    exact (insertByPath_perm f (sortByPath fs)).trans (List.Perm.cons f ih)

/-! ### Claims -/

/-- Claim C1, counterexample: the stored tags string is NOT duplicate-free.
For the content `"note #a and #a"` the code stores `"#a #a"`: the tag
token `#a` occurs twice in the stored tags string. -/
theorem C1_tags_not_deduplicated_counterexample :
    extract_tags "note #a and #a" = "#a #a"
    ∧ (re_findall_tags "note #a and #a").count "#a" = 2 := by
  have h : findTagsAux "note #a and #a".data = [['#', 'a'], ['#', 'a']] := by
    simp [findTagsAux, isWordChar]
  constructor
  · simp only [extract_tags, re_findall_tags, h]
    decide
  · simp only [re_findall_tags, h]
    decide

/-- Claim C1 as amended: the tags field is the space-join of ALL hashtag
matches of the content in left-to-right occurrence order, one entry per
occurrence — duplicates are preserved, not collapsed. -/
theorem C1_tags_occurrence_join (content : String) :
    extract_tags content
      = String.intercalate " " ((tagMatches 0 content.data).map fun pt => String.mk pt.2)
    ∧ (re_findall_tags content).length = (tagMatches 0 content.data).length := by
  have h := tagMatches_map_snd 0 content.data
  constructor
  · unfold extract_tags re_findall_tags
    rw [← h, List.map_map]
    rfl
  · unfold re_findall_tags
    rw [← h, List.map_map, List.length_map]

/-- Claim C2, counterexample: `timeline` does not include files whose
name has no date with date `"unknown"`; it omits them entirely.  For a
tree holding only the dateless document `notes.md`, the timeline is
empty. -/
theorem C2_timeline_omits_undated_counterexample :
    timeline [undatedFile] none = []
    ∧ strEndsWith undatedFile.name ".md" = true
    ∧ findDate undatedFile.name = none := by
  refine ⟨?_, by decide, by decide⟩
  decide

/-- Claim C2 as amended: `timeline` lists exactly the `.md` files whose
name contains a `YYYY-MM-DD` pattern (with the first such substring as
the entry's date); files lacking a date are omitted, never listed as
`"unknown"`. -/
theorem C2_timeline_membership (tree : List MFile) (d : Option String) (e : TEntry) :
    e ∈ timeline tree d ↔
      ∃ f ∈ tree, strEndsWith f.name ".md" = true ∧ findDate f.name = some e.date
        ∧ e.file = f.name ∧ e.path = f.path := by
  obtain ⟨ef, ed, ep⟩ := e
  unfold timeline
  rw [List.mem_filterMap]
  constructor
  · rintro ⟨md, hmd, hmap⟩
    rw [(sortByPath_perm _).mem_iff] at hmd
    unfold globMd at hmd
    rw [List.mem_filter] at hmd
    obtain ⟨dt, hdt, he⟩ := Option.map_eq_some'.mp hmap
    injection he with h1 h2 h3
    subst h1
    subst h2
    subst h3
    exact ⟨md, hmd.1, hmd.2, hdt, rfl, rfl⟩
  · rintro ⟨f, hf, hmd, hdate, hfile, hpath⟩
    subst hfile
    subst hpath
    refine ⟨f, ?_, ?_⟩
    · rw [(sortByPath_perm _).mem_iff]
      unfold globMd
      rw [List.mem_filter]
      exact ⟨hf, hmd⟩
    · rw [hdate, Option.map_some']

/-- Claim C3, counterexample: one unreadable path does NOT fail for that
path only; the whole batch is lost.  Although `memory/2026-02-01-notes.md`
is readable in `fsExample`, requesting it together with a missing path
returns only the error — no contents at all. -/
theorem C3_get_content_aborts_counterexample :
    get_content fsExample ["memory/missing.md", "memory/2026-02-01-notes.md"]
      = .error "memory/missing.md"
    ∧ readFile fsExample "memory/2026-02-01-notes.md" = some "hello world" :=
  ⟨rfl, rfl⟩

/-- Claim C3 as amended: `get_content` raises at the FIRST unreadable
path in the list and then no contents are returned at all; only when
every path is readable does it return the full batch, keyed by
basename. -/
theorem C3_get_content_first_failure (fs : FS) (paths : List String) :
    get_content fs paths =
      match paths.find? (fun p => (readFile fs p).isNone) with
      | some p => .error p
      | none => .ok (paths.map fun p => (basename p, (readFile fs p).getD "")) := by
  induction paths with
  | nil => rfl
  | cons p ps ih =>
    cases hr : readFile fs p with
    | none => simp [get_content, List.find?_cons, hr]
    | some c =>
      simp only [get_content, List.find?_cons, hr, Option.isNone_some, ih, List.map_cons]
      cases hf : ps.find? (fun q => (readFile fs q).isNone) with
      | none => simp [hr]
      | some q => simp

/-- Claim C4: after a rebuild over a tree with duplicate-free paths, the
store holds exactly one record (keyed by path) per readable, non-hidden
`.md` file, no record for unreadable or hidden ones, one warning per
unreadable candidate, and the indexed count equals the number of
successfully indexed files. -/
theorem C4_rebuild_exactly_one_record (store : List Record) (tree : List MFile)
    (hnd : ((globMd tree).map MFile.path).Nodup) :
    (∀ f ∈ globMd tree,
      (index_memory_files store tree).records.countP (fun r => r.file_path == f.path)
        = if isIndexed f then 1 else 0)
    ∧ (index_memory_files store tree).warnings = (globMd tree).countP isWarned
    ∧ (index_memory_files store tree).indexed = (globMd tree).countP isIndexed := by
  unfold index_memory_files
  rw [foldl_indexStep]
  refine ⟨?_, by simp, by simp⟩
  intro f hf
  simp only [clearAll, List.nil_append]
  rw [countP_filterMap_fileRecord, countP_path_single (globMd tree) hnd f hf isIndexed]

/-- Witness for C4 on the concrete tree `exTree` (one readable dated
file, one unreadable file, one hidden file, one non-`.md` file). -/
theorem C4_rebuild_exactly_one_record_witness :
    ((globMd exTree).map MFile.path).Nodup
    ∧ ((∀ f ∈ globMd exTree,
        (index_memory_files [] exTree).records.countP (fun r => r.file_path == f.path)
          = if isIndexed f then 1 else 0)
      ∧ (index_memory_files [] exTree).warnings = (globMd exTree).countP isWarned
      ∧ (index_memory_files [] exTree).indexed = (globMd exTree).countP isIndexed)
    ∧ (index_memory_files [] exTree).warnings = 1
    ∧ (index_memory_files [] exTree).indexed = 1 :=
  ⟨by decide, C4_rebuild_exactly_one_record [] exTree (by decide), by decide, by decide⟩

/-- Claim C5: `date_created` is the leftmost `\d{4}-\d{2}-\d{2}` match of
the filename (no calendrical validation — `9999-99-99` is accepted) and
the literal `"unknown"` when no position matches; in particular
`2026-02-01-notes.md` yields `2026-02-01` and `notes.md` yields
`unknown`. -/
theorem C5_date_leftmost_or_unknown (name : String) :
    extract_date "2026-02-01-notes.md" = "2026-02-01"
    ∧ extract_date "notes.md" = "unknown"
    ∧ extract_date "9999-99-99.md" = "9999-99-99"
    ∧ (match firstDatePos name.data with
       | some i =>
         ((List.range i).all fun j => (dateAt (name.data.drop j)).isNone) = true
         ∧ (dateAt (name.data.drop i)).isSome = true
         ∧ extract_date name = String.mk ((name.data.drop i).take 10)
       | none =>
         ((List.range name.data.length).all fun j => (dateAt (name.data.drop j)).isNone) = true
         ∧ extract_date name = "unknown") := by
  refine ⟨by decide, by decide, by decide, ?_⟩
  cases hp : firstDatePos name.data with
  | some i =>
    obtain ⟨h1, h2, h3⟩ := firstDatePos_some name.data i hp
    refine ⟨h1, h2, ?_⟩
    unfold extract_date findDate
    rw [h3]
    obtain ⟨d, hd⟩ := Option.isSome_iff_exists.mp h2
    rw [hd, Option.map_some']
    rw [dateAt_take hd]
  | none =>
    obtain ⟨h1, h2⟩ := firstDatePos_none name.data hp
    refine ⟨h1, ?_⟩
    unfold extract_date findDate
    rw [h2]
    rfl

/-- Claim C6, counterexample: the chosen summary line is not "the first
line of the content that is non-empty after trimming and does not start
with a heading marker".  The code splits the whitespace-TRIMMED content
and tests `startswith('#')` on the UNtrimmed line, so it disagrees with
both readings of the claim: for `"  # Title\nhello"` the claim (raw
reading) picks the first line while the code yields `"hello"`, and for
`"# T\n  #tag x\nworld"` the claim (trimmed reading) picks `"world"`
while the code yields `"#tag x"`. -/
theorem C6_summary_line_choice_counterexample :
    extract_summary "  # Title\nhello" = "hello"
    ∧ claimSummaryRaw "  # Title\nhello" = "  # Title"
    ∧ ¬ claimSummaryRaw "  # Title\nhello" = extract_summary "  # Title\nhello"
    ∧ ¬ String.mk (pyStripList "  # Title".data) = extract_summary "  # Title\nhello"
    ∧ extract_summary "# T\n  #tag x\nworld" = "#tag x"
    ∧ claimSummaryTrimmed "# T\n  #tag x\nworld" = "world"
    ∧ ¬ claimSummaryTrimmed "# T\n  #tag x\nworld"
        = extract_summary "# T\n  #tag x\nworld" := by
  decide

set_option maxRecDepth 100000 in
/-- Claim C6 as amended: the summary is computed over the lines of the
whitespace-trimmed content; the first line that is non-empty after
trimming and whose first character (before trimming) is not `#` is
selected, trimmed, and truncated to 200 characters; if no line
qualifies, the summary is the first 200 characters of the raw content.
The summary never exceeds 200 characters, and a document whose first
non-heading line is 250 characters long yields exactly the 200-character
prefix of that line. -/
theorem C6_summary_characterization (content : String) :
    (match (splitLines (pyStripList content.data)).find? summaryLineOk with
     | some l => extract_summary content = String.mk ((pyStripList l).take 200)
     | none => extract_summary content = String.mk (content.data.take 200))
    ∧ (extract_summary content).length ≤ 200
    ∧ extract_summary longContent = strTake longLine 200
    ∧ (extract_summary longContent).length = 200 := by
  refine ⟨?_, ?_, ?_, ?_⟩
  · cases hf : (splitLines (pyStripList content.data)).find? summaryLineOk with
    | some l => simp [extract_summary, hf]
    | none => simp [extract_summary, hf, List.take_take]
  · unfold extract_summary
    rw [strLength_mk, List.length_take]
    exact Nat.min_le_left _ _
  · decide
  · decide

/-- Claim C7: rebuilding twice over an unchanged tree yields identical
results, and the result of a rebuild is independent of the previous
store contents (the table is cleared before repopulating, so no stale
or duplicate records survive). -/
theorem C7_rebuild_idempotent (store : List Record) (tree : List MFile) :
    index_memory_files (index_memory_files store tree).records tree
      = index_memory_files store tree
    ∧ ∀ store₂, index_memory_files store₂ tree = index_memory_files store tree :=
  ⟨rfl, fun _ => rfl⟩

/-- Claim C8: a query whose text is empty or malformed makes `search`
fail with a `QueryError`; no result list (partial or total) is
returned. -/
theorem C8_search_rejects_malformed_query (store : List Record) (q : String)
    (limit : Nat) (h : queryWellFormed q = false) :
    search store q limit = .error .malformed := by
  unfold search ftsQuery
  rw [h]
  rfl

/-- Witness for C8: the empty query against a nonempty store errors out. -/
theorem C8_search_rejects_malformed_query_witness :
    queryWellFormed "" = false
    ∧ search [exRecord] "" 5 = .error .malformed :=
  ⟨by decide, C8_search_rejects_malformed_query [exRecord] "" 5 (by decide)⟩

/-- Claim C9: the `around_date` argument of `timeline` (the `--date`
option) has no effect whatsoever on the result. -/
theorem C9_timeline_ignores_date_argument (tree : List MFile) (d1 d2 : Option String) :
    timeline tree d1 = timeline tree d2 := rfl

/-- Claim C10: tag extraction is deterministic (it is a pure function of
the content) and lists the hashtag tokens in left-to-right occurrence
order: the extracted list is the match list of `tagMatches`, whose
positions are strictly increasing and each of whose entries is a genuine
hashtag token read off at its position. -/
theorem C10_tags_deterministic_occurrence_order (content : String) :
    re_findall_tags content = (tagMatches 0 content.data).map (fun pt => String.mk pt.2)
    ∧ List.Pairwise (fun a b : Nat × List Char => a.1 < b.1) (tagMatches 0 content.data)
    ∧ (tagMatches 0 content.data).all (tokenOk content.data) = true := by
  refine ⟨?_, tagMatches_pairwise 0 content.data, ?_⟩
  · unfold re_findall_tags
    rw [← tagMatches_map_snd 0, List.map_map]
    rfl
  · rw [List.all_eq_true]
    intro pt hpt
    have h := tagMatches_tokenOk 0 content.data pt hpt
    rwa [Nat.sub_zero] at h

end MemorySearch
